import Mathlib

/-!
Verification of the Bloom-filter construction and query engine of
`khtools/bloom_filter.py` (orpheum).  Definitions follow the source file
where it is present under `src/`; components of the repository that the
source file imports but that are not under `src/` (the kmerizer, the
alphabet encoder interface, the Bloom table `Nodegraph` with its
save/load format, the murmur hash, and the containment scorer) are
modelled from the specification, as marked in their doc comments.
-/

/-- Source constant `DEFAULT_MAX_TABLESIZE = 1e10` (`bloom_filter.py`). -/
def DEFAULT_MAX_TABLESIZE : Nat := 10 ^ 10

/-- Source constant `DEFAULT_PROTEIN_KSIZE = 7` (`bloom_filter.py`). -/
def DEFAULT_PROTEIN_KSIZE : Nat := 7

/-- Source constant `DEFAULT_DAYHOFF_KSIZE = 11` (`bloom_filter.py`). -/
def DEFAULT_DAYHOFF_KSIZE : Nat := 11

/-- Source constant `DEFAULT_HP_KSIZE = 21` (`bloom_filter.py`). -/
def DEFAULT_HP_KSIZE : Nat := 21

/-- Modelled from the spec: the 64-bit string hash primitive
(`hash_murmur` from sourmash is not under `src/`); §4.2 only requires a
deterministic, seedable map from strings to 64-bit integers, so a
seeded polynomial hash reduced modulo 2^64 stands in for murmur. -/
def hashString64 (seed : Nat) (s : String) : Nat :=
  s.data.foldl (fun h c => (h * 1099511628211 + c.toNat) % 2 ^ 64)
    ((seed + 14695981039346656037) % 2 ^ 64)

/-- Modelled from the spec: §4.2 Hash Family, "a single well-distributed
64-bit hash seeded N ways"; the position in table `seed` is the seeded
hash reduced into `[0, tablesize)`. -/
def hashPosition (seed tablesize : Nat) (kmer : String) : Nat :=
  hashString64 seed kmer % tablesize

/-- Modelled from the spec: §4.2, the N table positions of a k-mer. -/
def hashPositions (n_tables tablesize : Nat) (kmer : String) : List Nat :=
  (List.range n_tables).map (fun i => hashPosition i tablesize kmer)

/-- Modelled from the spec: §4.3/§3 Bloom Table state, "N bit arrays of
size M, plus recorded construction parameters" (the khmer `Nodegraph`
used by the source is not under `src/`). -/
structure BloomTable where
  ksize : Nat
  n_tables : Nat
  tablesize : Nat
  bits : List (List Bool)
  deriving Repr, DecidableEq

/-- Modelled from the spec: §4.3, all bits initialized to 0; mirrors the
source constructor call `Nodegraph(peptide_ksize, tablesize, n_tables)`. -/
def BloomTable.empty (ksize n_tables tablesize : Nat) : BloomTable :=
  ⟨ksize, n_tables, tablesize, List.replicate n_tables (List.replicate tablesize false)⟩

/-- Modelled from the spec: §4.3 `insert(item)`: "compute N positions via
Hash Family; set all N bits to 1". -/
def BloomTable.insert (t : BloomTable) (kmer : String) : BloomTable :=
  { t with bits := (List.range t.n_tables).map (fun i =>
      (t.bits.getD i []).set (hashPosition i t.tablesize kmer) true) }

/-- Modelled from the spec: §4.3 `contains(item)`: "compute the same N
positions; return true iff all N bits are set". -/
def BloomTable.contains (t : BloomTable) (kmer : String) : Bool :=
  (List.range t.n_tables).all (fun i =>
    (t.bits.getD i []).getD (hashPosition i t.tablesize kmer) false)

/-- Structural invariant of a constructed table: positive table size, one
bit row per hash table, each row of length `tablesize`. -/
def BloomTable.WF (t : BloomTable) : Prop :=
  0 < t.tablesize ∧ t.bits.length = t.n_tables ∧
    ∀ i < t.n_tables, (t.bits.getD i []).length = t.tablesize

instance (t : BloomTable) : Decidable t.WF := by
  unfold BloomTable.WF; infer_instance

/-- Modelled from the spec: §4.1 K-mer Extractor
(`khtools.compare_kmer_content.kmerize` is not under `src/`): "the set of
all K contiguous substrings found by sliding the window by 1 position
from index 0 to L−K. If L < K, produce the empty set". -/
def kmerize (s : String) (k : Nat) : List String :=
  if s.length < k then []
  else (List.range (s.length - k + 1)).map (fun i =>
    String.mk ((s.data.drop i).take k))

/-- A record of the input stream: §6 "an iterable of records each exposing
at minimum a `sequence` string and a `name` string". -/
structure Record where
  name : String
  sequence : String
  deriving Repr, DecidableEq

/-- The per-record body of the build loop of `make_peptide_bloom_filter`
(`bloom_filter.py` lines 24–35): skip the record if `'*'` occurs in its
raw sequence, otherwise encode it, kmerize it and insert every k-mer.
The alphabet encoder (`encode_peptide`, not under `src/`) is passed as a
pure string transform per §6. -/
def processRecord (encode : String → String) (peptide_ksize : Nat)
    (t : BloomTable) (r : Record) : BloomTable :=
  if r.sequence.contains '*' then t
  else (kmerize (encode r.sequence) peptide_ksize).foldl BloomTable.insert t

/-- Source `make_peptide_bloom_filter` (`bloom_filter.py` lines 18–36):
fold the build loop over the records of the peptide file, starting from
a fresh table. -/
def make_peptide_bloom_filter (encode : String → String) (records : List Record)
    (peptide_ksize : Nat) (n_tables : Nat := 4)
    (tablesize : Nat := DEFAULT_MAX_TABLESIZE) : BloomTable :=
  records.foldl (processRecord encode peptide_ksize)
    (BloomTable.empty peptide_ksize n_tables tablesize)

/-- Modelled from the spec: §6 saved filter layout (khmer's on-disk
`Nodegraph` format is not under `src/`): "declared k-mer size (integer),
table size M (integer), number of hash tables N (integer), and N bit
arrays of length M". Bits serialize as 1/0. -/
def BloomTable.save (t : BloomTable) : List Nat :=
  t.ksize :: t.tablesize :: t.n_tables ::
    (t.bits.map (fun row => row.map (fun b => if b then 1 else 0))).flatten

/-- Helper for `load`: split the flat bit payload back into `n` rows of
`m` bits each, decoding 1 as a set bit. -/
def unflattenBits (n m : Nat) (l : List Nat) : List (List Bool) :=
  match n with
  | 0 => []
  | n' + 1 => (l.take m).map (fun x => x == 1) :: unflattenBits n' m (l.drop m)

/-- Modelled from the spec: §4.3/§6 `load`, restoring "the full bit-array
state plus declared parameters" from the saved layout; a payload of the
wrong length is rejected. -/
def BloomTable.load (data : List Nat) : Option BloomTable :=
  match data with
  | k :: m :: n :: rest =>
      if rest.length = n * m then some ⟨k, n, m, unflattenBits n m rest⟩
      else none
  | _ => none

/-- Source `maybe_make_peptide_bloom_filter` (`bloom_filter.py` lines
39–52): when `peptides_are_bloom_filter` is set, load the saved filter
and `assert peptide_ksize == peptide_bloom_filter.ksize()` (a failing
assert raises, modelled as `none`); otherwise build from the records. -/
def maybe_make_peptide_bloom_filter (peptide_ksize : Nat)
    (saved : List Nat) (encode : String → String) (records : List Record)
    (peptides_are_bloom_filter : Bool) : Option BloomTable :=
  if peptides_are_bloom_filter then
    match BloomTable.load saved with
    | some t => if peptide_ksize = t.ksize then some t else none
    | none => none
  else
    some (make_peptide_bloom_filter encode records peptide_ksize)

/-- Source `get_peptide_ksize` (`bloom_filter.py` lines 119–131): when no
k-mer size is supplied, select the per-molecule default, raising
`ValueError` (modelled as `Except.error`) for an unknown molecule; a
supplied k-mer size is returned unchanged. -/
def get_peptide_ksize (molecule : String) (peptide_ksize : Option Nat) :
    Except String Nat :=
  match peptide_ksize with
  | some k => .ok k
  | none =>
      if molecule = "protein" then .ok DEFAULT_PROTEIN_KSIZE
      else if molecule = "dayhoff" then .ok DEFAULT_DAYHOFF_KSIZE
      else if molecule = "hydrophobic-polar" ∨ molecule = "hp" then .ok DEFAULT_HP_KSIZE
      else .error (molecule ++ " is not a valid protein encoding! Only one of " ++
        "protein, hydrophobic-polar, or dayhoff can be specified")

/-- Modelled from the spec: §4.5 Containment Scorer
(`khtools.extract_coding` is not under `src/`): extract the query's
k-mers, score 0 when there are none, otherwise the fraction of k-mers
that test positive against the table. -/
def score (t : BloomTable) (query : String) (k : Nat) : Rat :=
  let kmers := kmerize query k
  if kmers.length = 0 then 0
  else (kmers.countP (fun km => t.contains km) : Rat) / (kmers.length : Rat)

/-! ### Basic lemmas about table rows -/

lemma getD_range_map {α : Type} (f : Nat → α) (n i : Nat) (d : α) (h : i < n) :
    ((List.range n).map f).getD i d = f i := by
  rw [List.getD_eq_getElem?_getD, List.getElem?_map, List.getElem?_range h]
  rfl

lemma getD_set_true_self (l : List Bool) (i : Nat) (h : i < l.length) :
    (l.set i true).getD i false = true := by
  rw [List.getD_eq_getElem?_getD, List.getElem?_set]
  simp [h]

lemma getD_set_true_mono (l : List Bool) (i j : Nat)
    (h : l.getD j false = true) : (l.set i true).getD j false = true := by
  rw [List.getD_eq_getElem?_getD, List.getElem?_set]
  rw [List.getD_eq_getElem?_getD] at h
  by_cases hij : i = j
  · subst hij
    by_cases hl : i < l.length
    · simp [hl]
    · simp only [hl, if_true, if_false]
      rw [List.getElem?_eq_none (Nat.le_of_not_lt hl)] at h
      simp at h
  · simpa [hij] using h

@[simp] lemma BloomTable.insert_ksize (t : BloomTable) (k : String) :
    (t.insert k).ksize = t.ksize := rfl

@[simp] lemma BloomTable.insert_n_tables (t : BloomTable) (k : String) :
    (t.insert k).n_tables = t.n_tables := rfl

@[simp] lemma BloomTable.insert_tablesize (t : BloomTable) (k : String) :
    (t.insert k).tablesize = t.tablesize := rfl

lemma BloomTable.insert_bits_getD (t : BloomTable) (k : String) (i : Nat)
    (h : i < t.n_tables) :
    (t.insert k).bits.getD i []
      = (t.bits.getD i []).set (hashPosition i t.tablesize k) true := by
  unfold BloomTable.insert
  exact getD_range_map _ _ _ _ h

lemma BloomTable.WF.getD_length {t : BloomTable} (hwf : t.WF) {i : Nat}
    (h : i < t.n_tables) : (t.bits.getD i []).length = t.tablesize :=
  hwf.2.2 i h

lemma BloomTable.WF.insert {t : BloomTable} (hwf : t.WF) (k : String) :
    (t.insert k).WF := by
  refine ⟨hwf.1, ?_, ?_⟩
  · simp [BloomTable.insert, hwf.2.1]
  · intro i hi
    rw [BloomTable.insert_n_tables] at hi
    rw [BloomTable.insert_tablesize, t.insert_bits_getD k i hi, List.length_set]
    exact hwf.getD_length hi

lemma BloomTable.contains_eq_true_iff (t : BloomTable) (k : String) :
    t.contains k = true ↔ ∀ i < t.n_tables,
      (t.bits.getD i []).getD (hashPosition i t.tablesize k) false = true := by
  unfold BloomTable.contains
  rw [List.all_eq_true]
  constructor
  · intro h i hi
    exact h i (List.mem_range.mpr hi)
  · intro h i hi
    exact h i (List.mem_range.mp hi)

lemma BloomTable.contains_insert_self {t : BloomTable} (hwf : t.WF) (k : String) :
    (t.insert k).contains k = true := by
  rw [BloomTable.contains_eq_true_iff]
  intro i hi
  rw [BloomTable.insert_n_tables] at hi
  rw [BloomTable.insert_tablesize, t.insert_bits_getD k i hi]
  refine getD_set_true_self _ _ ?_
  rw [hwf.getD_length hi]
  exact Nat.mod_lt _ hwf.1

lemma BloomTable.contains_insert_mono {t : BloomTable} {k : String}
    (h : t.contains k = true) (k' : String) : (t.insert k').contains k = true := by
  rw [BloomTable.contains_eq_true_iff] at h ⊢
  intro i hi
  rw [BloomTable.insert_n_tables] at hi
  rw [BloomTable.insert_tablesize, t.insert_bits_getD k' i hi]
  exact getD_set_true_mono _ _ _ (h i hi)

lemma BloomTable.contains_foldl_insert {t : BloomTable} {k : String}
    (h : t.contains k = true) (ks : List String) :
    (ks.foldl BloomTable.insert t).contains k = true := by
  induction ks generalizing t with
  | nil => exact h
  | cons k' ks ih => exact ih (t.contains_insert_mono h k')

lemma BloomTable.insert_insert (t : BloomTable) (a b : String) :
    (t.insert a).insert b = (t.insert b).insert a := by
  have hbits : ∀ a b : String, ((t.insert a).insert b).bits
      = (List.range t.n_tables).map (fun i =>
          (((t.bits.getD i []).set (hashPosition i t.tablesize a) true).set
            (hashPosition i t.tablesize b) true)) := by
    intro a b
    show (List.range (t.insert a).n_tables).map _ = _
    simp only [BloomTable.insert_n_tables, BloomTable.insert_tablesize]
    apply List.map_congr_left
    intro i hi
    rw [t.insert_bits_getD a i (List.mem_range.mp hi)]
  have key : ((t.insert a).insert b).bits = ((t.insert b).insert a).bits := by
    rw [hbits a b, hbits b a]
    apply List.map_congr_left
    intro i _
    by_cases hp : hashPosition i t.tablesize a = hashPosition i t.tablesize b
    · rw [hp, List.set_set]
    · rw [List.set_comm _ _ _ hp]
  obtain ⟨ks, n, m, bits⟩ := t
  exact congrArg (BloomTable.mk ks n m) key

lemma BloomTable.insert_idem (t : BloomTable) (k : String) :
    (t.insert k).insert k = t.insert k := by
  have key : ((t.insert k).insert k).bits = (t.insert k).bits := by
    show (List.range (t.insert k).n_tables).map _ = _
    simp only [BloomTable.insert_n_tables, BloomTable.insert_tablesize]
    apply List.map_congr_left
    intro i hi
    rw [t.insert_bits_getD k i (List.mem_range.mp hi), List.set_set]
  obtain ⟨ks, n, m, bits⟩ := t
  exact congrArg (BloomTable.mk ks n m) key

lemma foldl_insert_insert (ks : List String) (t : BloomTable) (a : String) :
    ks.foldl BloomTable.insert (t.insert a)
      = (ks.foldl BloomTable.insert t).insert a := by
  induction ks generalizing t with
  | nil => rfl
  | cons k ks ih =>
      show ks.foldl _ ((t.insert a).insert k) = _
      rw [t.insert_insert a k, ih (t.insert k), List.foldl_cons]

lemma foldl_insert_comm (ks1 ks2 : List String) (t : BloomTable) :
    ks2.foldl BloomTable.insert (ks1.foldl BloomTable.insert t)
      = ks1.foldl BloomTable.insert (ks2.foldl BloomTable.insert t) := by
  induction ks1 generalizing t with
  | nil => rfl
  | cons a ks1 ih =>
      show ks2.foldl _ (ks1.foldl _ (t.insert a)) = ks1.foldl _ (_)
      rw [ih (t.insert a), foldl_insert_insert ks2 t a]

lemma processRecord_comm (encode : String → String) (peptide_ksize : Nat)
    (t : BloomTable) (r1 r2 : Record) :
    processRecord encode peptide_ksize (processRecord encode peptide_ksize t r1) r2
      = processRecord encode peptide_ksize
          (processRecord encode peptide_ksize t r2) r1 := by
  unfold processRecord
  by_cases h1 : r1.sequence.contains '*' <;>
    by_cases h2 : r2.sequence.contains '*' <;> simp [h1, h2]
  exact foldl_insert_comm _ _ t

/-! ### Serialization lemmas -/

lemma map_decode_encode (row : List Bool) :
    (row.map (fun b => if b then (1 : Nat) else 0)).map (fun x : Nat => x == 1)
      = row := by
  rw [List.map_map]
  have h : ((fun x : Nat => x == 1) ∘ fun b => if b then (1 : Nat) else 0)
      = id := by
    funext b; cases b <;> rfl
  rw [h, List.map_id]

lemma sum_map_length_const {α : Type} (L : List (List α)) (m : Nat)
    (h : ∀ r ∈ L, r.length = m) : (L.map List.length).sum = L.length * m := by
  induction L with
  | nil => simp
  | cons r L ih =>
      simp only [List.map_cons, List.sum_cons, List.length_cons]
      rw [h r (List.mem_cons_self r L), ih (fun x hx => h x (List.mem_cons_of_mem _ hx))]
      ring

lemma unflatten_flatten (rows : List (List Bool)) (m : Nat)
    (h : ∀ r ∈ rows, r.length = m) :
    unflattenBits rows.length m
        ((rows.map (fun row => row.map (fun b => if b then 1 else 0))).flatten)
      = rows := by
  induction rows with
  | nil => rfl
  | cons r rows ih =>
      simp only [List.map_cons, List.flatten_cons, List.length_cons]
      unfold unflattenBits
      have hlen : (r.map (fun b => if b then (1 : Nat) else 0)).length = m := by
        rw [List.length_map]; exact h r (List.mem_cons_self r rows)
      rw [List.take_left' hlen, List.drop_left' hlen, map_decode_encode,
        ih (fun x hx => h x (List.mem_cons_of_mem _ hx))]

lemma BloomTable.WF.mem_length {t : BloomTable} (hwf : t.WF) :
    ∀ r ∈ t.bits, r.length = t.tablesize := by
  intro r hr
  obtain ⟨i, hi, rfl⟩ := List.mem_iff_getElem.mp hr
  rw [← List.getD_eq_getElem t.bits [] hi]
  exact hwf.2.2 i (by rw [← hwf.2.1]; exact hi)

lemma save_load_eq (t : BloomTable) (hwf : t.WF) :
    BloomTable.load t.save = some t := by
  obtain ⟨ks, n, m, bits⟩ := t
  have hmem : ∀ r ∈ bits, r.length = m := hwf.mem_length
  have hn : bits.length = n := hwf.2.1
  have hL : ∀ r ∈ bits.map (fun row =>
      row.map (fun b => if b then (1 : Nat) else 0)), r.length = m := by
    intro r hr
    obtain ⟨row, hrow, rfl⟩ := List.mem_map.mp hr
    rw [List.length_map]; exact hmem row hrow
  have hflat : ((bits.map (fun row =>
      row.map (fun b => if b then (1 : Nat) else 0))).flatten).length = n * m := by
    rw [List.length_flatten, sum_map_length_const _ m hL, List.length_map, hn]
  show BloomTable.load (ks :: m :: n ::
      (bits.map (fun row => row.map (fun b => if b then (1 : Nat) else 0))).flatten)
    = some ⟨ks, n, m, bits⟩
  simp only [BloomTable.load]
  rw [if_pos hflat, ← hn]
  rw [unflatten_flatten bits m hmem]

/-! ### Claim theorems -/

/-- C1: No false negatives — every item inserted into a well-formed
BloomTable still tests positive via `contains`, both immediately after
the insertion (take `ks = []`) and after any number of further
insertions of other items. -/
theorem bloom_no_false_negatives (t : BloomTable) (hwf : t.WF) (k : String)
    (ks : List String) :
    (ks.foldl BloomTable.insert (t.insert k)).contains k = true :=
  BloomTable.contains_foldl_insert (BloomTable.contains_insert_self hwf k) ks

/-- C1 witness: a concrete item inserted into a fresh table still tests
positive after two further insertions. -/
theorem bloom_no_false_negatives_witness :
    ((["QR", "ST"].foldl BloomTable.insert
        ((BloomTable.empty 7 2 5).insert "AB")).contains "AB") = true :=
  bloom_no_false_negatives (BloomTable.empty 7 2 5) (by decide) "AB" ["QR", "ST"]

/-- C2: Stop-symbol exclusion — a record whose raw (pre-encoding)
sequence contains the stop symbol is skipped entirely by the Filter
Builder: building with the record present yields exactly the table built
with the record removed, so none of its k-mers are inserted. -/
theorem stop_record_contributes_nothing (encode : String → String)
    (peptide_ksize n_tables tablesize : Nat) (rs1 rs2 : List Record)
    (r : Record) (h : r.sequence.contains '*' = true) :
    make_peptide_bloom_filter encode (rs1 ++ r :: rs2) peptide_ksize n_tables tablesize
      = make_peptide_bloom_filter encode (rs1 ++ rs2) peptide_ksize n_tables tablesize := by
  unfold make_peptide_bloom_filter
  rw [List.foldl_append, List.foldl_append, List.foldl_cons]
  congr 1
  show processRecord _ _ _ r = _
  unfold processRecord
  rw [if_pos h]

/-- C2 witness: building over a stream holding a stopped record equals
building over the stream with that record removed. -/
theorem stop_record_contributes_nothing_witness :
    make_peptide_bloom_filter id [⟨"a", "ABC"⟩, ⟨"b", "D*E"⟩] 2 2 5
      = make_peptide_bloom_filter id [⟨"a", "ABC"⟩] 2 2 5 :=
  stop_record_contributes_nothing id 2 2 5 [⟨"a", "ABC"⟩] [] ⟨"b", "D*E"⟩
    ((String.contains_iff _ _).mpr (by decide))

/-- C3: Parameter-mismatch rejection on load — loading a saved filter
through `maybe_make_peptide_bloom_filter` yields the saved table exactly
when the expected k-mer size equals the persisted one, and the
assertion failure (`none`) otherwise. -/
theorem load_ksize_check (peptide_ksize : Nat) (t : BloomTable) (hwf : t.WF)
    (encode : String → String) (records : List Record) :
    maybe_make_peptide_bloom_filter peptide_ksize t.save encode records true
      = if peptide_ksize = t.ksize then some t else none := by
  simp only [maybe_make_peptide_bloom_filter, save_load_eq t hwf, if_true]

/-- C3 witness: expecting k = 11 against a filter saved with k = 7 is
rejected. -/
theorem load_ksize_check_witness :
    maybe_make_peptide_bloom_filter 11 (BloomTable.empty 7 2 3).save id [] true
      = if 11 = (BloomTable.empty 7 2 3).ksize then some (BloomTable.empty 7 2 3)
        else none :=
  load_ksize_check 11 (BloomTable.empty 7 2 3) (by decide) id []

/-- C4: Save/load round-trip — loading a saved well-formed BloomTable
reconstructs it bit-for-bit, including the declared construction
parameters (k-mer size, table size, number of hash tables). -/
theorem bloom_save_load_roundtrip (t : BloomTable) (hwf : t.WF) :
    BloomTable.load t.save = some t :=
  save_load_eq t hwf

/-- C4 witness: a concrete fresh table survives the round-trip. -/
theorem bloom_save_load_roundtrip_witness :
    BloomTable.load (BloomTable.empty 7 2 3).save = some (BloomTable.empty 7 2 3) :=
  bloom_save_load_roundtrip (BloomTable.empty 7 2 3) (by decide)

/-- C5: Build is order-insensitive and insert is idempotent — building
over any permutation of the records yields the same table, and inserting
the same k-mer twice equals inserting it once. -/
theorem build_perm_invariant_insert_idem (encode : String → String)
    (peptide_ksize n_tables tablesize : Nat) (rs rs' : List Record)
    (hperm : rs.Perm rs') (t : BloomTable) (k : String) :
    make_peptide_bloom_filter encode rs peptide_ksize n_tables tablesize
      = make_peptide_bloom_filter encode rs' peptide_ksize n_tables tablesize
    ∧ (t.insert k).insert k = t.insert k := by
  constructor
  · unfold make_peptide_bloom_filter
    exact hperm.foldl_eq'
      (fun x _ y _ z => processRecord_comm encode peptide_ksize z x y) _
  · exact t.insert_idem k

/-- C5 witness: swapping two concrete records leaves the built table
unchanged, and a concrete double insertion collapses. -/
theorem build_perm_invariant_insert_idem_witness :
    make_peptide_bloom_filter id [⟨"a", "ABC"⟩, ⟨"b", "CDE"⟩] 2 2 5
      = make_peptide_bloom_filter id [⟨"b", "CDE"⟩, ⟨"a", "ABC"⟩] 2 2 5
    ∧ ((BloomTable.empty 2 2 5).insert "AB").insert "AB"
        = (BloomTable.empty 2 2 5).insert "AB" :=
  build_perm_invariant_insert_idem id 2 2 5
    [⟨"a", "ABC"⟩, ⟨"b", "CDE"⟩] [⟨"b", "CDE"⟩, ⟨"a", "ABC"⟩]
    (by decide) (BloomTable.empty 2 2 5) "AB"

/-- C6 counterexample: the claim as stated is false on the code — the
molecule name "hp" lies outside {protein, dayhoff, hydrophobic-polar}
yet `get_peptide_ksize` accepts it, and with a supplied k-mer size even
an arbitrary invalid molecule name is not rejected. -/
theorem invalid_alphabet_not_always_rejected :
    get_peptide_ksize "hp" none = Except.ok 21
    ∧ ¬("hp" = "protein" ∨ "hp" = "dayhoff" ∨ "hp" = "hydrophobic-polar")
    ∧ get_peptide_ksize "artichoke" (some 5) = Except.ok 5 :=
  ⟨rfl, by decide, rfl⟩

/-- C6 (amended): when no k-mer size is supplied, every molecule name
outside {protein, dayhoff, hydrophobic-polar, hp} is rejected with a
configuration error before any build work; when a k-mer size is
supplied, `get_peptide_ksize` performs no molecule validation and
returns the supplied value. -/
theorem invalid_alphabet_rejected_amended (molecule : String)
    (h : molecule ≠ "protein" ∧ molecule ≠ "dayhoff" ∧
      molecule ≠ "hydrophobic-polar" ∧ molecule ≠ "hp") :
    get_peptide_ksize molecule none
        = Except.error (molecule ++ " is not a valid protein encoding! Only one of " ++
            "protein, hydrophobic-polar, or dayhoff can be specified")
    ∧ ∀ k : Nat, get_peptide_ksize molecule (some k) = Except.ok k := by
  refine ⟨?_, fun k => rfl⟩
  unfold get_peptide_ksize
  rw [if_neg h.1, if_neg h.2.1, if_neg (not_or.mpr ⟨h.2.2.1, h.2.2.2⟩)]

/-- C6 witness: the molecule name "dna" is rejected when no k-mer size
is supplied, and returned k-mer sizes bypass validation. -/
theorem invalid_alphabet_rejected_amended_witness :
    get_peptide_ksize "dna" none
        = Except.error ("dna" ++ " is not a valid protein encoding! Only one of " ++
            "protein, hydrophobic-polar, or dayhoff can be specified")
    ∧ ∀ k : Nat, get_peptide_ksize "dna" (some k) = Except.ok k :=
  invalid_alphabet_rejected_amended "dna" (by decide)

/-- C7: Per-alphabet default k-mer sizes — protein defaults to 7,
dayhoff to 11, hydrophobic-polar to 21, and a supplied k-mer size is
always used as given. -/
theorem default_ksizes_per_alphabet :
    get_peptide_ksize "protein" none = Except.ok 7
    ∧ get_peptide_ksize "dayhoff" none = Except.ok 11
    ∧ get_peptide_ksize "hydrophobic-polar" none = Except.ok 21
    ∧ ∀ (molecule : String) (k : Nat),
        get_peptide_ksize molecule (some k) = Except.ok k :=
  ⟨rfl, rfl, rfl, fun _ _ => rfl⟩

/-- C8: Hash determinism — hashing equal k-mer strings yields equal
lists of table positions, and the list always has exactly `n_tables`
entries. -/
theorem hash_positions_deterministic (n_tables tablesize : Nat)
    (k k' : String) (h : k = k') :
    hashPositions n_tables tablesize k = hashPositions n_tables tablesize k'
    ∧ (hashPositions n_tables tablesize k).length = n_tables := by
  subst h
  exact ⟨rfl, by simp [hashPositions]⟩

/-- C8 witness: two invocations of the hash family on the same concrete
k-mer agree, with one position per hash table. -/
theorem hash_positions_deterministic_witness :
    hashPositions 4 100 "AAA" = hashPositions 4 100 "AAA"
    ∧ (hashPositions 4 100 "AAA").length = 4 :=
  hash_positions_deterministic 4 100 "AAA" "AAA" rfl

/-- C9: Short-sequence edge case — a query shorter than the window size
yields no k-mers at all, and its containment score against any table is
exactly 0. -/
theorem short_sequence_empty_and_zero (t : BloomTable) (q : String) (k : Nat)
    (h : q.length < k) :
    kmerize q k = [] ∧ score t q k = 0 := by
  have hk : kmerize q k = [] := by unfold kmerize; rw [if_pos h]
  exact ⟨hk, by simp [score, hk]⟩

/-- C9 witness: a length-2 query against window size 7 produces no
k-mers and scores 0. -/
theorem short_sequence_empty_and_zero_witness :
    kmerize "AB" 7 = [] ∧ score (BloomTable.empty 7 2 3) "AB" 7 = 0 :=
  short_sequence_empty_and_zero (BloomTable.empty 7 2 3) "AB" 7 (by decide)

/-- C10: the stop symbol is the literal character `'*'` and the builder's
skip test is membership of that character in the raw record sequence,
applied before alphabet encoding: a record is left out exactly when
`'*'` occurs anywhere in its raw sequence, and is otherwise fully
k-merized and inserted. -/
theorem stop_symbol_is_star_membership (encode : String → String)
    (peptide_ksize : Nat) (t : BloomTable) (r : Record) :
    ('*' ∈ r.sequence.data → processRecord encode peptide_ksize t r = t)
    ∧ ('*' ∉ r.sequence.data →
        processRecord encode peptide_ksize t r
          = (kmerize (encode r.sequence) peptide_ksize).foldl BloomTable.insert t) := by
  constructor
  · intro h
    unfold processRecord
    rw [if_pos ((String.contains_iff _ _).mpr h)]
  · intro h
    unfold processRecord
    rw [if_neg (fun hc => h ((String.contains_iff _ _).mp hc))]

/-- C10 witness: a record holding `'*'` is dropped; a record without it
is k-merized and inserted. -/
theorem stop_symbol_is_star_membership_witness :
    processRecord id 2 (BloomTable.empty 2 2 5) ⟨"s", "MK*L"⟩ = BloomTable.empty 2 2 5
    ∧ processRecord id 2 (BloomTable.empty 2 2 5) ⟨"c", "MKL"⟩
        = (kmerize (id ("MKL" : String)) 2).foldl BloomTable.insert
            (BloomTable.empty 2 2 5) :=
  ⟨(stop_symbol_is_star_membership id 2 (BloomTable.empty 2 2 5) ⟨"s", "MK*L"⟩).1
      (by decide),
   (stop_symbol_is_star_membership id 2 (BloomTable.empty 2 2 5) ⟨"c", "MKL"⟩).2
      (by decide)⟩
